import Mathlib

/-!
Verification development for the claude-code-sessions-manager repository.

The repository aggregates an append-only newline-delimited event log
(`history.jsonl`) into session records, enriches sessions with todo detail
from per-session files, deletes sessions (atomic log rewrite plus bounded
artifact removal under the data root), and drives a two-mode terminal
dashboard.  This file shallowly embeds the relevant Python functions
(`src/data/delete.py`, `src/data/history.py`, `src/data/session.py`,
`src/tui/app.py`, `src/utils/paths.py`) as Lean definitions and proves
properties about them.

Modelling conventions:
* A filesystem path is a list of name components (`PathC`).
* A `history.jsonl` line is modelled by `HLine`: blank (strips to empty),
  malformed (JSON decode fails), or a parsed record carrying the four
  optional fields the code reads.  Field values are typed as the spec's
  external-interface section describes them (`sessionId`/`display`/`project`
  strings, `timestamp` integer milliseconds); Python truthiness of a field
  is modelled explicitly (absent, empty string, or zero are falsy).
* `ms_to_datetime` (formatting.py) is a strictly monotone injection from
  integer milliseconds to datetimes, so datetimes are identified with their
  millisecond value (`Int`); order statements about `datetime` fields are
  exactly order statements about the underlying milliseconds.
* Filesystem effects (resolve, is_dir, exists, unlink/rmtree success,
  os.walk output, glob) are parameters of the model, never performed.
-/

namespace SessionsManager

/-- A filesystem path, as its list of name components. -/
abbrev PathC := List String

/-- Python `pat in s` substring test, on the character lists. -/
def strContains (s pat : String) : Bool :=
  decide (pat.toList <:+: s.toList)

/-! ## paths.py -/

/-- Embedding of `project_path_to_slug` from `src/utils/paths.py`:
convert a project path such as `/Users/foo/bar` to `-Users-foo-bar`
by replacing every `/` with `-`. -/
def project_path_to_slug (projectPath : String) : String :=
  String.mk (projectPath.toList.map (fun c => if c = '/' then '-' else c))

/-! ## History line model (shared by delete.py and history.py) -/

/-- One line of `history.jsonl` as both `delete.py` and `history.py` see it
after `line.strip()` and `json.loads`. -/
inductive HLine where
  /-- A line that strips to the empty string. -/
  | blank : HLine
  /-- A line on which `json.loads` raises `JSONDecodeError`. -/
  | malformed (raw : String) : HLine
  /-- A successfully decoded JSON object; each field is `none` when absent
  from the object (`dict.get` returns `None`). -/
  | record (sessionId : Option String) (timestamp : Option Int)
           (display : Option String) (project : Option String) : HLine
deriving DecidableEq, Repr

/-- Python truthiness of an optional string: `None` and `""` are falsy. -/
def truthyStr : Option String → Bool
  | none => false
  | some s => s ≠ ""

/-- Python truthiness of an optional integer: `None` and `0` are falsy. -/
def truthyInt : Option Int → Bool
  | none => false
  | some n => n ≠ 0

/-! ## delete.py: delete_sessions_from_history -/

/-- The test `entry.get("sessionId") in session_ids` performed by
`delete_sessions_from_history` on one decoded line: blank and malformed
lines are never matched (they are kept before the test is reached), and a
record matches exactly when its `sessionId` field is a string in the set. -/
def lineMatchesIds (ids : List String) : HLine → Bool
  | .blank => false
  | .malformed _ => false
  | .record sid _ _ _ =>
    match sid with
    | some s => ids.contains s
    | none => false

/-- The read/filter loop of `delete_sessions_from_history`
(`src/data/delete.py` lines 74–92): stream the lines, keep every blank or
malformed line, keep every record whose `sessionId` is not in the set, and
count the dropped lines.  Returns `(kept_lines, removed_count)`. -/
def delete_sessions_from_history (ids : List String) : List HLine → List HLine × Nat
  | [] => ([], 0)
  | l :: rest =>
    let (kept, n) := delete_sessions_from_history ids rest
    match l with
    | .blank => (l :: kept, n)
    | .malformed raw => (HLine.malformed raw :: kept, n)
    | .record sid ts d p =>
      if lineMatchesIds ids (.record sid ts d p) then (kept, n + 1)
      else (l :: kept, n)

/-! ## delete.py: the atomic write phase (lines 94–107)

The write phase opens a temp file next to the log, writes the kept lines,
and renames it over the original.  Any `OSError` during write or rename is
caught: the temp file is unlinked best-effort and the failure is reported as
fatal (`sys.exit(1)`), leaving the original log untouched.  The filesystem
state relevant to the phase is the content of `history.jsonl` and of the
temp file. -/

/-- The log directory state the write phase manipulates: the current content
of `history.jsonl` and the content of the temp file if it exists. -/
structure LogFS where
  history : List HLine
  tmp : Option (List HLine)
deriving DecidableEq, Repr

/-- The primitive filesystem operations the write phase performs, with
their effect on the log directory state.  `renameTmpOverHistory` is the one
and only operation that changes the content of `history.jsonl`, and it is
atomic: it installs the complete temp-file content in one step. -/
inductive LogOp where
  /-- Models `open(tmp_path, "w")` followed by a complete `writelines`. -/
  | writeTmpFull : LogOp
  /-- Models `writelines` raising `OSError` after writing only a prefix. -/
  | writeTmpPart (k : Nat) : LogOp
  /-- Models `tmp_path.rename(history_path)` succeeding. -/
  | renameTmpOverHistory : LogOp
  /-- Models `tmp_path.unlink(missing_ok=True)` succeeding. -/
  | unlinkTmp : LogOp
deriving DecidableEq, Repr

/-- Effect of one primitive operation on the log directory state, with
`kept` the lines being written to the temp file. -/
def applyLogOp (kept : List HLine) (fs : LogFS) : LogOp → LogFS
  | .writeTmpFull => { fs with tmp := some kept }
  | .writeTmpPart k => { fs with tmp := some (kept.take k) }
  | .renameTmpOverHistory => { history := fs.tmp.getD fs.history, tmp := none }
  | .unlinkTmp => { fs with tmp := none }

/-- How the write phase can fail, mirroring the `except OSError` handler:
no failure, a failure while writing the temp file, or a failure of the
rename itself.  The handler's `tmp_path.unlink(missing_ok=True)` is itself
best-effort (wrapped in `try`/`except OSError: pass`); `unlinkOk` records
whether it succeeded. -/
inductive WriteFailure where
  | ok : WriteFailure
  /-- Case where `tmp_file.writelines` raised after writing `written` of the lines. -/
  | duringWrite (written : Nat) (unlinkOk : Bool) : WriteFailure
  /-- Case where `tmp_path.rename(history_path)` raised. -/
  | duringRename (unlinkOk : Bool) : WriteFailure
deriving DecidableEq, Repr

/-- The write phase of `delete_sessions_from_history`
(`src/data/delete.py` lines 94–107), as the sequence of primitive
operations it performs in each failure scenario.  Returns the resulting
directory state and `true` when the phase succeeded; `false` models the
fatal `sys.exit(1)` report from the `except OSError` handler. -/
def historyWritePhase (fs : LogFS) (kept : List HLine) :
    WriteFailure → LogFS × Bool
  | .ok =>
    -- temp file fully written, then atomically renamed over the original
    (applyLogOp kept (applyLogOp kept fs .writeTmpFull) .renameTmpOverHistory,
     true)
  | .duringWrite k unlinkOk =>
    -- handler: unlink the partially written temp file (best-effort)
    let fs1 := applyLogOp kept fs (.writeTmpPart k)
    (if unlinkOk then applyLogOp kept fs1 .unlinkTmp else fs1, false)
  | .duringRename unlinkOk =>
    -- rename never replaced the original; handler unlinks the temp file
    let fs1 := applyLogOp kept fs .writeTmpFull
    (if unlinkOk then applyLogOp kept fs1 .unlinkTmp else fs1, false)

/-! ## delete.py: artifact search and removal -/

/-- One `(dirpath, dirnames, filenames)` triple yielded by
`os.walk(root)`. -/
structure WalkEntry where
  dirpath : PathC
  dirnames : List String
  filenames : List String
deriving DecidableEq, Repr

/-- Lexicographic comparison of character lists by code point, the order
Python uses to compare strings (helper for `pathLt`). -/
def charListLt : List Char → List Char → Bool
  | [], [] => false
  | [], _ :: _ => true
  | _ :: _, [] => false
  | a :: as, b :: bs =>
    if a < b then true else if b < a then false else charListLt as bs

/-- Python string comparison, on the character lists. -/
def strLt (a b : String) : Bool :=
  charListLt a.toList b.toList

/-- Lexicographic comparison of paths by components, mirroring how Python
compares `Path` objects (tuple comparison of their parts). -/
def pathLt : PathC → PathC → Bool
  | [], [] => false
  | [], _ :: _ => true
  | _ :: _, [] => false
  | a :: as, b :: bs =>
    if strLt a b then true else if strLt b a then false else pathLt as bs

/-- Insert a path into a sorted list of paths (helper for `sortPaths`). -/
def insertPath (p : PathC) : List PathC → List PathC
  | [] => [p]
  | q :: qs => if pathLt q p then q :: insertPath p qs else p :: q :: qs

/-- Implements `matches.sort()` from `find_session_artifacts`: sort paths
lexicographically. -/
def sortPaths (l : List PathC) : List PathC :=
  l.foldr insertPath []

/-- Embedding of `find_session_artifacts` from `src/data/delete.py` (lines 19–43): walk
the data root collecting every file whose name contains the session id
(excluding `history.jsonl` itself) and every directory whose name contains
the session id, then sort for consistent ordering.  The `os.walk` output is
a parameter of the model. -/
def find_session_artifacts (sessionId : String) (walk : List WalkEntry) : List PathC :=
  sortPaths <| walk.foldl
    (fun acc w =>
      acc
      ++ ((w.filenames.filter
            (fun n => strContains n sessionId && n ≠ "history.jsonl")).map
          (fun n => w.dirpath ++ [n]))
      ++ ((w.dirnames.filter (fun n => strContains n sessionId)).map
          (fun n => w.dirpath ++ [n])))
    []

/-- The filesystem view `delete_session_files` consults, as abstract
parameters: `resolve` is symlink-aware real-path resolution
(`Path.resolve()`), `pathTaken` is `Path.exists()`, `isDir` is
`Path.is_dir()`, `removeOk` tells whether `unlink`/`shutil.rmtree` on the
path succeeds (`false` models the `OSError` caught as a warning), and
`jsonlNames` lists the `glob("*.jsonl")` file names inside a directory. -/
structure FSModel where
  resolve : PathC → PathC
  pathTaken : PathC → Bool
  isDir : PathC → Bool
  removeOk : PathC → Bool
  jsonlNames : PathC → List String

/-- The body of the artifact loop in `delete_session_files`
(`src/data/delete.py` lines 157–174) for one candidate `artifact`:
skip it when already deleted; skip it (silently) when
`artifact.resolve().relative_to(root.resolve())` raises, i.e. when the
resolved root is not a prefix of the resolved artifact path; otherwise
remove it, appending to `deleted` on success and warning (without
appending) on `OSError`. -/
def processArtifact (fs : FSModel) (root : PathC) (deleted : List PathC)
    (artifact : PathC) : List PathC :=
  if artifact ∈ deleted then deleted
  else if fs.resolve root <+: fs.resolve artifact then
    if fs.removeOk artifact then deleted ++ [artifact] else deleted
  else deleted

/-- Step 3 of `delete_session_files` (`src/data/delete.py` lines 155–174):
search for artifacts matching the session id and process each candidate
with the root-containment safety check, threading the accumulated
`deleted` list. -/
def deleteMatchedArtifacts (fs : FSModel) (root : PathC) (sessionId : String)
    (walk : List WalkEntry) (deleted : List PathC) : List PathC :=
  (find_session_artifacts sessionId walk).foldl (processArtifact fs root) deleted

/-- Implements `Path.with_suffix("")` on a file name: drop the final extension.  The
extension is `name[i:]` for the last dot index `i` only when
`0 < i < len(name) - 1` (so leading-dot names and trailing dots have no
extension), matching pathlib. -/
def withSuffixEmpty (name : String) : String :=
  let cs := name.toList
  match ((List.range cs.length).filter (fun i => cs.getD i ' ' = '.')).getLast? with
  | none => name
  | some i => if 0 < i ∧ i < cs.length - 1 then String.mk (cs.take i) else name

/-- Embedding of `delete_session_files` from `src/data/delete.py` (lines 110–188):
delete (1) the per-session `.jsonl` file under `projects/<slug>/`, (2) the
same-named sibling directory, (3) every other artifact found by the
substring search that re-confirms as contained in the data root, and (4)
the project directory itself when no `.jsonl` files remain in it.  Each
individual removal failure is a warning; the function returns the list of
paths successfully deleted, in deletion order. -/
def delete_session_files (fs : FSModel) (walk : List WalkEntry) (root : PathC)
    (projectPath sessionId : String) : List PathC :=
  let slug := project_path_to_slug projectPath
  -- 1. the primary .jsonl file
  let jsonlPath : PathC := root ++ ["projects", slug, sessionId ++ ".jsonl"]
  let d1 : List PathC :=
    if fs.pathTaken jsonlPath then
      if fs.removeOk jsonlPath then [jsonlPath] else []
    else []
  -- 2. the per-session directory (same path without the .jsonl extension)
  let sessionDir : PathC :=
    root ++ ["projects", slug, withSuffixEmpty (sessionId ++ ".jsonl")]
  let d2 : List PathC :=
    if fs.isDir sessionDir then
      if fs.removeOk sessionDir then d1 ++ [sessionDir] else d1
    else d1
  -- 3. any other artifacts matching the session id, with the safety check
  let d3 := deleteMatchedArtifacts fs root sessionId walk d2
  -- 4. the project directory, if no .jsonl files remain
  let projectDir : PathC := root ++ ["projects", slug]
  if fs.isDir projectDir && (fs.jsonlNames projectDir).isEmpty then
    if fs.removeOk projectDir then d3 ++ [projectDir] else d3
  else d3

/-! ## history.py: load_sessions -/

/-- A fully valid event, after the four-field truthiness check of
`load_sessions` (`src/data/history.py` lines 45–51). -/
structure Event where
  sessionId : String
  timestamp : Int
  display : String
  project : String
deriving DecidableEq, Repr

/-- The per-line parse-and-validate step of `load_sessions`
(`src/data/history.py` lines 35–53): skip blank lines, skip lines whose
JSON fails to decode (with a diagnostic), skip records for which
`all((session_id, timestamp, display, project))` is false (any field
absent or falsy), and keep the rest. -/
def parseEvent : HLine → Option Event
  | .blank => none
  | .malformed _ => none
  | .record sid ts d p =>
    match sid, ts, d, p with
    | some s, some t, some dv, some pv =>
      if truthyStr (some s) && truthyInt (some t)
          && truthyStr (some dv) && truthyStr (some pv) then
        some ⟨s, t, dv, pv⟩
      else none
    | _, _, _, _ => none

/-- Implements `entries.setdefault(session_id, []).append(entry)`: append the event to
its session's group in an insertion-ordered association list (Python dicts
preserve key insertion order). -/
def insertGroup : List (String × List Event) → Event → List (String × List Event)
  | [], e => [(e.sessionId, [e])]
  | (k, es) :: rest, e =>
    if k = e.sessionId then (k, es ++ [e]) :: rest
    else (k, es) :: insertGroup rest e

/-- The grouping loop of `load_sessions`: fold the valid events into the
insertion-ordered association list of groups. -/
def groupBySession (events : List Event) : List (String × List Event) :=
  events.foldl insertGroup []

/-- Insert into a list sorted ascending by an integer key, passing only
strictly smaller keys, so that among equal keys the inserted (originally
earlier) element comes first (helper for the stable `sortByKey`). -/
def insortKey {α : Type} (k : α → Int) (a : α) : List α → List α
  | [] => [a]
  | b :: bs => if k b < k a then b :: insortKey k a bs else a :: b :: bs

/-- Python's stable `list.sort(key=f)` for an integer key, ascending:
stable insertion sort. -/
def sortByKey {α : Type} (k : α → Int) (l : List α) : List α :=
  l.foldr (insortKey k) []

/-- Insert into a list sorted descending by an integer key, passing only
strictly greater keys (helper for the stable `sortByKeyDesc`). -/
def insortKeyDesc {α : Type} (k : α → Int) (a : α) : List α → List α
  | [] => [a]
  | b :: bs => if k a < k b then b :: insortKeyDesc k a bs else a :: b :: bs

/-- Python's stable `list.sort(key=f, reverse=True)` for an integer key:
descending, equal keys keep their original relative order. -/
def sortByKeyDesc {α : Type} (k : α → Int) (l : List α) : List α :=
  l.foldr (insortKeyDesc k) []

/-- Python `min` over a list of integers (never called on `[]` by
`load_sessions`, which only builds nonempty groups; `0` stands in for the
`ValueError` Python would raise there). -/
def listMinInt : List Int → Int
  | [] => 0
  | x :: xs => xs.foldl min x

/-- Python `max` over a list of integers (same proviso as `listMinInt`). -/
def listMaxInt : List Int → Int
  | [] => 0
  | x :: xs => xs.foldl max x

/-- A `Session` dataclass from `src/data/models.py`.  As explained in the
header, `datetime` fields are identified with their underlying integer
milliseconds, `ms_to_datetime` being a strictly monotone injection. -/
structure Session where
  session_id : String
  project_path : String
  created_at : Int
  last_active_at : Int
  latest_command : String
  commands : List String
  todos : List String
deriving DecidableEq, Repr

/-- The per-group Session construction of `load_sessions`
(`src/data/history.py` lines 56–69): sort the group by timestamp
(stable), then take the first event's `project`, `min`/`max` of the
timestamps, the last event's `display`, and the `display` sequence in
timestamp order.  Returns `none` on an empty group, which `load_sessions`
never produces. -/
def mkSession (sid : String) (group : List Event) : Option Session :=
  match sortByKey (fun e => e.timestamp) group with
  | [] => none
  | first :: rest =>
    let sorted := first :: rest
    let timestamps := sorted.map (fun e => e.timestamp)
    some
      { session_id := sid
        project_path := first.project
        created_at := listMinInt timestamps
        last_active_at := listMaxInt timestamps
        latest_command := (sorted.getLast (List.cons_ne_nil _ _)).display
        commands := sorted.map (fun e => e.display)
        todos := [] }

/-- Embedding of `load_sessions` from `src/data/history.py` (lines 15–72), on the log
content (the fatal not-found / permission cases concern opening the file
and are outside this pure model): parse and validate each line, group by
session id, build one Session per group, and sort by `last_active_at`
descending (stable). -/
def load_sessions (lines : List HLine) : List Session :=
  let events := lines.filterMap parseEvent
  let groups := groupBySession events
  let sessions := groups.filterMap (fun g => mkSession g.1 g.2)
  sortByKeyDesc (fun s => s.last_active_at) sessions

/-! ## session.py: load_session_detail -/

/-- One item of a record's `todos` array in the per-session file: a plain
string, a dict (with the three optional string fields the code tries and
its Python `str()` form), or a value of any other type, which the
`isinstance` chain skips. -/
inductive TodoItem where
  | str (s : String) : TodoItem
  | obj (content text title : Option String) (strForm : String) : TodoItem
  | otherVal : TodoItem
deriving DecidableEq, Repr

/-- One line of a per-session detail file: blank, JSON-malformed, or a
decoded record whose `todos` field is `none` when absent or not a list. -/
inductive DLine where
  | blank : DLine
  | malformed (raw : String) : DLine
  | record (todos : Option (List TodoItem)) : DLine
deriving DecidableEq, Repr

/-- Python `a or b` for `a` an optional string field of a dict: falls
through to `b` on `None` and on the falsy empty string. -/
def pyOrStr (a : Option String) (b : String) : String :=
  match a with
  | some v => if v = "" then b else v
  | none => b

/-- The accumulation body of `load_session_detail`
(`src/data/session.py` lines 32–51) for one line: skip blank, malformed,
`todos`-less and empty-`todos` lines (`if not entry_todos or not
isinstance(entry_todos, list): continue`); append each string item as-is;
for each dict item append
`item.get("content") or item.get("text") or item.get("title") or str(item)`;
skip items of any other type. -/
def collectLineTodos (acc : List String) : DLine → List String
  | .blank => acc
  | .malformed _ => acc
  | .record none => acc
  | .record (some items) =>
    if items.isEmpty then acc
    else
      items.foldl
        (fun a it =>
          match it with
          | .str s => a ++ [s]
          | .obj c t ti sf => a ++ [pyOrStr c (pyOrStr t (pyOrStr ti sf))]
          | .otherVal => a)
        acc

/-- One step of the dedup loop (`src/data/session.py` lines 54–59), on the
state `(seen, unique_todos)`; the `seen` set is modelled as the list of its
elements in insertion order. -/
def dedupeStep (acc : List String × List String) (todo : String) :
    List String × List String :=
  if todo ∈ acc.1 then acc else (acc.1 ++ [todo], acc.2 ++ [todo])

/-- The dedup loop of `load_session_detail`: keep the first occurrence of
each todo. -/
def dedupeTodos (todos : List String) : List String :=
  (todos.foldl dedupeStep ([], [])).2

/-- The three ways reading the per-session file can go for
`load_session_detail`: the file is absent (`not path.exists()`), opening
it raises (`PermissionError`/`OSError`), or it opens and yields lines. -/
inductive FileRead where
  | missing : FileRead
  | unreadable : FileRead
  | content (lines : List DLine) : FileRead
deriving DecidableEq, Repr

/-- Embedding of `load_session_detail` from `src/data/session.py` (lines 13–62): return
the session unchanged when the file is missing or unreadable; otherwise
accumulate todo strings from the decodable lines and assign the
deduplicated list to the session's `todos`. -/
def load_session_detail (s : Session) : FileRead → Session
  | .missing => s
  | .unreadable => s
  | .content lines =>
    let todos := lines.foldl collectLineTodos []
    { s with todos := dedupeTodos todos }

/-! ## app.py: the dashboard state machine

`src/tui/app.py` keeps its state in the `_State` container and dispatches
raw curses key codes in `_main`'s loop.  The model below embeds the pure
state transitions; curses rendering, colors and the actual filesystem
effects are outside it.  Keys are the integer codes the code compares
against: `curses.KEY_UP = 259`, `curses.KEY_DOWN = 258`,
`curses.KEY_ENTER = 343`, `curses.KEY_RESIZE = 410`, and `ord` of the
character keys. -/

/-- Constant `MODE_SELECT` from `src/tui/app.py`. -/
def MODE_SELECT : String := "SELECT"

/-- Constant `MODE_DELETE` from `src/tui/app.py`. -/
def MODE_DELETE : String := "DELETE"

/-- The `_State` container from `src/tui/app.py` (lines 51–63). -/
structure TuiState where
  sessions : List Session
  mode : String
  cursor : Nat
  scroll_offset : Nat
  selected : Finset String
  message : Option String
  confirming : Bool
  enrichedId : Option String
deriving DecidableEq

/-- The initial `_State(sessions)`. -/
def initState (sessions : List Session) : TuiState :=
  { sessions := sessions
    mode := MODE_SELECT
    cursor := 0
    scroll_offset := 0
    selected := ∅
    message := none
    confirming := false
    enrichedId := none }

/-- Stand-in for `state.sessions[state.cursor]` when the cursor is out of
bounds; Python would raise `IndexError` there, which the loop's invariant
(cursor clamped below the list length) rules out, and every theorem that
reads the current session hypothesises the cursor in bounds. -/
def defaultSession : Session :=
  { session_id := ""
    project_path := ""
    created_at := 0
    last_active_at := 0
    latest_command := ""
    commands := []
    todos := [] }

/-- Reads `state.sessions[state.cursor]`, with `defaultSession` out of bounds. -/
def currentSession (st : TuiState) : Session :=
  st.sessions.getD st.cursor defaultSession

/-- The non-`None` returns of the key handlers: `"quit"` or `"launch"`. -/
inductive KeyAction where
  | quit : KeyAction
  | launch : KeyAction
deriving DecidableEq, Repr

/-- Embedding of `_handle_select_key` from `src/tui/app.py` (lines 225–240). -/
def handleSelectKey (key : Int) (st : TuiState) : TuiState × Option KeyAction :=
  if key = 259 ∨ key = 107 then        -- KEY_UP or 'k'
    (if st.cursor > 0 then { st with cursor := st.cursor - 1 } else st, none)
  else if key = 258 ∨ key = 106 then   -- KEY_DOWN or 'j'
    (if st.cursor + 1 < st.sessions.length then
       { st with cursor := st.cursor + 1 }
     else st, none)
  else if key = 68 ∨ key = 100 then    -- 'D' or 'd'
    ({ st with mode := MODE_DELETE, message := none }, none)
  else if key = 81 ∨ key = 113 then    -- 'Q' or 'q'
    (st, some .quit)
  else if key = 343 ∨ key = 10 ∨ key = 13 then  -- KEY_ENTER, '\n', '\r'
    (st, some .launch)
  else (st, none)

/-- The confirming transition of `_handle_delete_key`
(`src/tui/app.py` lines 268–269): set the pending-confirmation flag and
the count-specific prompt. -/
def confirmPromptState (st : TuiState) : TuiState :=
  { st with
    confirming := true
    message := some ("Delete " ++ toString st.selected.card
      ++ " session(s)? [y/N]") }

/-- Embedding of `_handle_delete_key` from `src/tui/app.py` (lines 243–270). -/
def handleDeleteKey (key : Int) (st : TuiState) : TuiState × Option KeyAction :=
  if key = 259 ∨ key = 107 then        -- KEY_UP or 'k'
    (if st.cursor > 0 then { st with cursor := st.cursor - 1 } else st, none)
  else if key = 258 ∨ key = 106 then   -- KEY_DOWN or 'j'
    (if st.cursor + 1 < st.sessions.length then
       { st with cursor := st.cursor + 1 }
     else st, none)
  else if key = 9 then                 -- '\t': toggle selection
    let sid := (currentSession st).session_id
    (if sid ∈ st.selected then { st with selected := st.selected.erase sid }
     else { st with selected := insert sid st.selected }, none)
  else if key = 83 ∨ key = 115 then    -- 'S' or 's'
    ({ st with mode := MODE_SELECT, selected := ∅, message := none }, none)
  else if key = 81 ∨ key = 113 then    -- 'Q' or 'q'
    (st, some .quit)
  else if key = 343 ∨ key = 10 ∨ key = 13 then  -- KEY_ENTER, '\n', '\r'
    (if st.selected = ∅ then
       ({ st with message := some "No sessions selected." }, none)
     else
       (confirmPromptState st, none))
  else (st, none)

/-- Embedding of `_do_delete` from `src/tui/app.py` (lines 290–313), after the deletion
engine has run; `reloaded` is the fresh `load_sessions()` result. -/
def doDelete (reloaded : List Session) (st : TuiState) : TuiState :=
  let count := st.selected.card
  let st1 :=
    { st with
      sessions := reloaded
      selected := (∅ : Finset String)
      mode := MODE_SELECT
      enrichedId := none }
  let st2 :=
    if st1.cursor ≥ st1.sessions.length then
      { st1 with cursor := st1.sessions.length - 1 }
    else st1
  { st2 with
    scroll_offset := 0
    message := some ("Deleted " ++ toString count ++ " session(s).") }

/-- Embedding of `_do_launch` from `src/tui/app.py` (lines 273–287): fails with a
message when the project directory no longer exists, otherwise execs (and
never returns).  `dirExists` models `Path(...).is_dir()`.  The second
component is true when the process was replaced. -/
def doLaunch (dirExists : String → Bool) (st : TuiState) : TuiState × Bool :=
  let session := currentSession st
  if ¬ dirExists session.project_path then
    ({ st with message := some ("Error: Directory '" ++ session.project_path
        ++ "' no longer exists.") }, false)
  else (st, true)

/-- The observable outcome of one iteration of `_main`'s loop. -/
structure StepOut where
  state : TuiState
  quitLoop : Bool
  execLaunched : Bool
  deletionInvoked : Bool
deriving DecidableEq

/-- One iteration of `_main`'s event loop after `getch`
(`src/tui/app.py` lines 335–372): timeout and resize leave the state
alone; the confirming sub-state consumes the key (affirmative `y`/`Y`
clears the prompt and runs `_do_delete`, anything else only clears the
prompt); otherwise the transient message is cleared, an empty session list
honors only quit, and the key goes to the current mode's handler. -/
def mainStep (dirExists : String → Bool) (reloaded : List Session)
    (st : TuiState) (key : Int) : StepOut :=
  if key = -1 then
    { state := st, quitLoop := false, execLaunched := false, deletionInvoked := false }
  else if key = 410 then               -- KEY_RESIZE
    { state := st, quitLoop := false, execLaunched := false, deletionInvoked := false }
  else if st.confirming then
    if key = 121 ∨ key = 89 then       -- 'y' or 'Y'
      let st1 := { st with confirming := false, message := none }
      { state := doDelete reloaded st1, quitLoop := false,
        execLaunched := false, deletionInvoked := true }
    else
      { state := { st with confirming := false, message := none },
        quitLoop := false, execLaunched := false, deletionInvoked := false }
  else
    let st0 := { st with message := none }
    if st0.sessions.isEmpty then
      if key = 81 ∨ key = 113 then
        { state := st0, quitLoop := true, execLaunched := false, deletionInvoked := false }
      else
        { state := st0, quitLoop := false, execLaunched := false, deletionInvoked := false }
    else if st0.mode = MODE_SELECT then
      match handleSelectKey key st0 with
      | (st1, some .quit) =>
        { state := st1, quitLoop := true, execLaunched := false, deletionInvoked := false }
      | (st1, some .launch) =>
        let (st2, execd) := doLaunch dirExists st1
        { state := st2, quitLoop := false, execLaunched := execd, deletionInvoked := false }
      | (st1, none) =>
        { state := st1, quitLoop := false, execLaunched := false, deletionInvoked := false }
    else if st0.mode = MODE_DELETE then
      match handleDeleteKey key st0 with
      | (st1, some .quit) =>
        { state := st1, quitLoop := true, execLaunched := false, deletionInvoked := false }
      | (st1, _) =>
        { state := st1, quitLoop := false, execLaunched := false, deletionInvoked := false }
    else
      { state := st0, quitLoop := false, execLaunched := false, deletionInvoked := false }

/-! ## Derived definitions and concrete inputs used by the theorems -/

/-- Whether the `except OSError` handler's best-effort
`tmp_path.unlink(missing_ok=True)` succeeded in a failure scenario. -/
def unlinkSucceeded : WriteFailure → Bool
  | .ok => true
  | .duringWrite _ u => u
  | .duringRename u => u

/-- A small filesystem view exercising the artifact-search safety check:
the candidate `["root", "sid-evil"]` resolves (through a symlink) outside
the data root, while every other path resolves to itself. -/
def demoFS : FSModel :=
  { resolve := fun p =>
      if p = ["root", "sid-evil"] then ["elsewhere", "sid-evil"] else p
    pathTaken := fun _ => false
    isDir := fun _ => false
    removeOk := fun _ => true
    jsonlNames := fun _ => ["keep.jsonl"] }

/-- An `os.walk(["root"])` output with two names containing the session id
`"sid"`: the symlinked `sid-evil` and the regular `sid-good`. -/
def demoWalk : List WalkEntry :=
  [{ dirpath := ["root"], dirnames := [], filenames := ["sid-evil", "sid-good"] }]

/-- The spec's aggregation scenario: three records for session `A1` with
timestamps 100, 300, 200 and one record for session `B2` with
timestamp 500. -/
def demoLog : List HLine :=
  [ .record (some "A1") (some 100) (some "a cmd 1") (some "/p"),
    .record (some "A1") (some 300) (some "a cmd 3") (some "/p"),
    .record (some "A1") (some 200) (some "a cmd 2") (some "/p"),
    .record (some "B2") (some 500) (some "b cmd") (some "/q") ]

/-- The `B2` session that `load_sessions demoLog` produces. -/
def demoSessionB2 : Session :=
  { session_id := "B2"
    project_path := "/q"
    created_at := 500
    last_active_at := 500
    latest_command := "b cmd"
    commands := ["b cmd"]
    todos := [] }

/-- The first-seen (log-order) `project` value among the valid events of a
session, the value the spec calls authoritative. -/
def firstSeenProject (events : List Event) (sid : String) : Option String :=
  ((events.filter (fun e => decide (e.sessionId = sid))).map
    (fun e => e.project)).head?

/-- The first element of a list attaining the minimal integer key — the
element a stable ascending sort places first. -/
def minFirstBy {α : Type} (k : α → Int) : List α → Option α
  | [] => none
  | a :: l =>
    match minFirstBy k l with
    | none => some a
    | some m => if k m < k a then some m else some a

/-- A log on which the first-seen project (`"A"`) and the
earliest-timestamp project (`"B"`) of the single session `"s"` differ:
the first-logged event has the later timestamp. -/
def demo6 : List HLine :=
  [ .record (some "s") (some 200) (some "cmd1") (some "A"),
    .record (some "s") (some 100) (some "cmd2") (some "B") ]

/-- The session `load_sessions demo6` produces. -/
def demo6Session : Session :=
  { session_id := "s"
    project_path := "B"
    created_at := 100
    last_active_at := 200
    latest_command := "cmd1"
    commands := ["cmd2", "cmd1"]
    todos := [] }

/-- A session that has already been enriched once: its `todos` is
nonempty. -/
def sessionWithTodo : Session :=
  { session_id := "A1"
    project_path := "/p"
    created_at := 100
    last_active_at := 300
    latest_command := "a cmd 3"
    commands := ["a cmd 1", "a cmd 2", "a cmd 3"]
    todos := ["x"] }

/-- Modelled from the spec's words for the enrichment extraction: the first
field in the given order that holds a usable (truthy) string. -/
def firstTruthyField : List (Option String) → Option String
  | [] => none
  | f :: fs =>
    match f with
    | some v => if v = "" then firstTruthyField fs else some v
    | none => firstTruthyField fs

/-- Modelled from the spec's words: the display string of a structured
todo object, trying in order the `content` field, then `text`, then
`title`, then falling back to the generic string form. -/
def specExtractDisplay (content text title : Option String)
    (strForm : String) : String :=
  (firstTruthyField [content, text, title]).getD strForm

/-- Modelled from the spec's words: the todo items one line contributes
(the items of its `todos` sequence, nothing from other lines). -/
def specLineItems : DLine → List TodoItem
  | .record (some items) => items
  | _ => []

/-- Modelled from the spec's words: the display strings one item
contributes — a plain string kept as-is, a structured object via
`specExtractDisplay`, anything else nothing. -/
def specItemDisplay : TodoItem → List String
  | .str s => [s]
  | .obj c t ti sf => [specExtractDisplay c t ti sf]
  | .otherVal => []

/-- Modelled from the spec's words: deduplicate preserving the first
occurrence of each string. -/
def specDedupFirst (l : List String) : List String :=
  l.foldl (fun acc x => if x ∈ acc then acc else acc ++ [x]) []

/-- A dashboard state sitting in the confirming sub-state with two
selected sessions, as in the spec's confirmation scenario. -/
def demoConfirmState : TuiState :=
  { sessions := [demoSessionB2, demo6Session]
    mode := MODE_DELETE
    cursor := 0
    scroll_offset := 0
    selected := {"B2", "s"}
    message := some "Delete 2 session(s)? [y/N]"
    confirming := true
    enrichedId := none }

/-- A dashboard state in DELETE mode, cursor on the first of two sessions,
one (other) session already selected. -/
def demoDeleteState : TuiState :=
  { sessions := [demoSessionB2, demo6Session]
    mode := MODE_DELETE
    cursor := 0
    scroll_offset := 0
    selected := {"s"}
    message := none
    confirming := false
    enrichedId := none }

/-! ## Theorems -/

/-- The kept/removed characterization of the filter loop. -/
theorem delete_history_eq_filter (ids : List String) (lines : List HLine) :
    delete_sessions_from_history ids lines =
      (lines.filter (fun l => !(lineMatchesIds ids l)),
       (lines.filter (fun l => lineMatchesIds ids l)).length) := by
  induction lines with
  | nil => rfl
  | cons l rest ih =>
    cases l with
    | blank =>
      simp [delete_sessions_from_history, ih, List.filter, lineMatchesIds]
    | malformed raw =>
      simp [delete_sessions_from_history, ih, List.filter, lineMatchesIds]
    | record sid ts d p =>
      by_cases h : lineMatchesIds ids (.record sid ts d p) = true
      · simp [delete_sessions_from_history, ih, List.filter, h]
      · simp [delete_sessions_from_history, ih, List.filter,
          Bool.of_not_eq_true h]

/-- C2: `delete_sessions_from_history` removes exactly the lines whose
parsed `sessionId` is in the given set (blank, unparseable and
field-incomplete lines are all kept), preserves all other lines in their
original relative order, returns the count of removed lines, and is
idempotent: a second application of the same deletion removes zero
lines. -/
theorem c2_delete_history_exact_and_idempotent (ids : List String)
    (lines : List HLine) :
    (delete_sessions_from_history ids lines).1
        = lines.filter (fun l => !(lineMatchesIds ids l)) ∧
    (delete_sessions_from_history ids lines).2
        = (lines.filter (fun l => lineMatchesIds ids l)).length ∧
    (delete_sessions_from_history ids
        (delete_sessions_from_history ids lines).1).2 = 0 := by
  refine ⟨by rw [delete_history_eq_filter], by rw [delete_history_eq_filter], ?_⟩
  rw [delete_history_eq_filter, delete_history_eq_filter]
  simp [List.filter_filter]

/-- C3: on any failure during the write phase (temp-file write or rename),
the original log content is untouched, the failure is reported as fatal,
and the temp file is removed whenever the best-effort unlink succeeds —
the rewrite is never partially applied. -/
theorem c3_write_failure_never_partial (fs : LogFS) (kept : List HLine)
    (f : WriteFailure) (hf : f ≠ WriteFailure.ok) :
    (historyWritePhase fs kept f).1.history = fs.history ∧
    (historyWritePhase fs kept f).2 = false ∧
    (unlinkSucceeded f = true → (historyWritePhase fs kept f).1.tmp = none) := by
  cases f with
  | ok => exact absurd rfl hf
  | duringWrite k u =>
    cases u <;> simp [historyWritePhase, applyLogOp, unlinkSucceeded]
  | duringRename u =>
    cases u <;> simp [historyWritePhase, applyLogOp, unlinkSucceeded]

/-- Concrete instance of the C3 theorem: a rename failure on a one-line
log leaves the line in place, reports fatally, and clears the temp file. -/
theorem c3_witness :
    (WriteFailure.duringRename true ≠ WriteFailure.ok) ∧
    ((historyWritePhase ⟨[HLine.blank], none⟩ [] (.duringRename true)).1.history
        = [HLine.blank] ∧
     (historyWritePhase ⟨[HLine.blank], none⟩ [] (.duringRename true)).2 = false ∧
     (unlinkSucceeded (.duringRename true) = true →
      (historyWritePhase ⟨[HLine.blank], none⟩ [] (.duringRename true)).1.tmp
        = none)) :=
  ⟨by decide,
   c3_write_failure_never_partial ⟨[HLine.blank], none⟩ [] (.duringRename true)
     (by decide)⟩

/-- One candidate step never deletes a path resolving outside the root:
anything in the output was already deleted or passes the containment
check. -/
theorem processArtifact_mem (fs : FSModel) (root : PathC)
    (deleted : List PathC) (a p : PathC)
    (hp : p ∈ processArtifact fs root deleted a) :
    p ∈ deleted ∨ fs.resolve root <+: fs.resolve p := by
  unfold processArtifact at hp
  split_ifs at hp with h1 h2 h3
  · exact Or.inl hp
  · rcases List.mem_append.mp hp with h | h
    · exact Or.inl h
    · rcases List.mem_singleton.mp h with rfl
      exact Or.inr h2
  · exact Or.inl hp
  · exact Or.inl hp

/-- Folding the candidate step over any artifact list never deletes a path
resolving outside the root. -/
theorem foldl_processArtifact_mem (fs : FSModel) (root : PathC) :
    ∀ (arts : List PathC) (deleted : List PathC) (p : PathC),
      p ∈ arts.foldl (processArtifact fs root) deleted →
      p ∈ deleted ∨ fs.resolve root <+: fs.resolve p := by
  intro arts
  induction arts with
  | nil => intro deleted p hp; exact Or.inl hp
  | cons a as ih =>
    intro deleted p hp
    rcases ih (processArtifact fs root deleted a) p hp with h | h
    · exact processArtifact_mem fs root deleted a p h
    · exact Or.inr h

set_option maxHeartbeats 1000000 in
/-- C1: every path removed by `delete_session_files` is either one of the
three paths derived from the project path and session id (the per-session
`.jsonl` file, its sibling directory, the project directory), or a
substring-search match whose resolved real path is contained in the
resolved data root.  In particular, a search candidate resolving outside
the root — e.g. because the session id is a substring of an unrelated
name — is skipped, never deleted. -/
theorem c1_never_deletes_outside_root (fs : FSModel) (walk : List WalkEntry)
    (root : PathC) (projectPath sessionId : String) (p : PathC)
    (hp : p ∈ delete_session_files fs walk root projectPath sessionId) :
    p = root ++ ["projects", project_path_to_slug projectPath,
          sessionId ++ ".jsonl"] ∨
    p = root ++ ["projects", project_path_to_slug projectPath,
          withSuffixEmpty (sessionId ++ ".jsonl")] ∨
    p = root ++ ["projects", project_path_to_slug projectPath] ∨
    fs.resolve root <+: fs.resolve p := by
  unfold delete_session_files at hp
  dsimp only [] at hp
  set slug := project_path_to_slug projectPath with hslug
  set jsonlPath : PathC := root ++ ["projects", slug, sessionId ++ ".jsonl"]
    with hjs
  set sessionDir : PathC :=
      root ++ ["projects", slug, withSuffixEmpty (sessionId ++ ".jsonl")]
    with hsd
  set projectDir : PathC := root ++ ["projects", slug] with hpd
  have hstep3 :
      ∀ prior : List PathC, (∀ q ∈ prior, q = jsonlPath ∨ q = sessionDir) →
        ∀ q ∈ deleteMatchedArtifacts fs root sessionId walk prior,
          q = jsonlPath ∨ q = sessionDir ∨ fs.resolve root <+: fs.resolve q := by
    intro prior hprior q hq
    rcases foldl_processArtifact_mem fs root _ _ q hq with h | h
    · rcases hprior q h with h' | h' <;> tauto
    · tauto
  split_ifs at hp <;>
    first
    | (rcases List.mem_append.mp hp with h | h
       · rcases hstep3 _ (by intro q hq; simp at hq <;> tauto) p h
           with h' | h' | h' <;> tauto
       · rcases List.mem_singleton.mp h with rfl; tauto)
    | (rcases hstep3 _ (by intro q hq; simp at hq <;> tauto) p hp
         with h' | h' | h' <;> tauto)

/-- Concrete instance of the C1 theorem: with session id `"sid"`, the
adversarial match `sid-evil` resolving outside the root is not deleted,
while the in-root match `sid-good` that is deleted satisfies the theorem's
disjunction through containment. -/
theorem c1_witness :
    (["root", "sid-evil"] : PathC) ∉
        delete_session_files demoFS demoWalk ["root"] "/proj" "sid" ∧
    ((["root", "sid-good"] : PathC) = ["root"] ++ ["projects",
        project_path_to_slug "/proj", "sid" ++ ".jsonl"] ∨
     (["root", "sid-good"] : PathC) = ["root"] ++ ["projects",
        project_path_to_slug "/proj", withSuffixEmpty ("sid" ++ ".jsonl")] ∨
     (["root", "sid-good"] : PathC) = ["root"] ++ ["projects",
        project_path_to_slug "/proj"] ∨
     demoFS.resolve ["root"] <+: demoFS.resolve ["root", "sid-good"]) :=
  ⟨by decide,
   c1_never_deletes_outside_root demoFS demoWalk ["root"] "/proj" "sid"
     ["root", "sid-good"] (by decide)⟩

/-- Membership in the descending stable insertion. -/
theorem mem_insortKeyDesc {α : Type} (k : α → Int) (a x : α) (l : List α) :
    x ∈ insortKeyDesc k a l ↔ x = a ∨ x ∈ l := by
  induction l with
  | nil => simp [insortKeyDesc]
  | cons b bs ih =>
    by_cases h : k a < k b
    · simp only [insortKeyDesc, if_pos h, List.mem_cons, ih]
      tauto
    · simp only [insortKeyDesc, if_neg h, List.mem_cons]

/-- The descending stable sort permutes membership. -/
theorem mem_sortByKeyDesc {α : Type} (k : α → Int) (x : α) (l : List α) :
    x ∈ sortByKeyDesc k l ↔ x ∈ l := by
  induction l with
  | nil => simp [sortByKeyDesc]
  | cons b bs ih =>
    show x ∈ insortKeyDesc k b (sortByKeyDesc k bs) ↔ _
    rw [mem_insortKeyDesc, ih, List.mem_cons]

/-- Insertion preserves the descending-sorted invariant. -/
theorem pairwise_insortKeyDesc {α : Type} (k : α → Int) (a : α) (l : List α)
    (h : l.Pairwise (fun x y => k y ≤ k x)) :
    (insortKeyDesc k a l).Pairwise (fun x y => k y ≤ k x) := by
  induction l with
  | nil => simp [insortKeyDesc]
  | cons b bs ih =>
    rcases List.pairwise_cons.mp h with ⟨hb, hbs⟩
    by_cases hab : k a < k b
    · simp only [insortKeyDesc, if_pos hab]
      refine List.pairwise_cons.mpr ⟨?_, ih hbs⟩
      intro y hy
      rcases (mem_insortKeyDesc k a y bs).mp hy with rfl | hy'
      · exact le_of_lt hab
      · exact hb y hy'
    · simp only [insortKeyDesc, if_neg hab]
      refine List.pairwise_cons.mpr ⟨?_, h⟩
      intro y hy
      rcases List.mem_cons.mp hy with rfl | hy'
      · exact not_lt.mp hab
      · exact le_trans (hb y hy') (not_lt.mp hab)

/-- The descending stable sort sorts. -/
theorem pairwise_sortByKeyDesc {α : Type} (k : α → Int) (l : List α) :
    (sortByKeyDesc k l).Pairwise (fun x y => k y ≤ k x) := by
  induction l with
  | nil => simp [sortByKeyDesc]
  | cons b bs ih => exact pairwise_insortKeyDesc k b _ ih

/-- A left fold of `min` only goes down from its start. -/
theorem foldl_min_le (xs : List Int) : ∀ x : Int, xs.foldl min x ≤ x := by
  induction xs with
  | nil => intro x; simp
  | cons y ys ih =>
    intro x
    calc (y :: ys).foldl min x = ys.foldl min (min x y) := rfl
    _ ≤ min x y := ih _
    _ ≤ x := min_le_left _ _

/-- A left fold of `max` only goes up from its start. -/
theorem le_foldl_max (xs : List Int) : ∀ x : Int, x ≤ xs.foldl max x := by
  induction xs with
  | nil => intro x; simp
  | cons y ys ih =>
    intro x
    calc x ≤ max x y := le_max_left _ _
    _ ≤ ys.foldl max (max x y) := ih _
    _ = (y :: ys).foldl max x := rfl

/-- On a nonempty list, Python `min` never exceeds Python `max`. -/
theorem listMinInt_le_listMaxInt (x : Int) (xs : List Int) :
    listMinInt (x :: xs) ≤ listMaxInt (x :: xs) :=
  le_trans (foldl_min_le xs x) (le_foldl_max xs x)

/-- Every session a group yields has `created_at ≤ last_active_at`. -/
theorem mkSession_time_range (sid : String) (group : List Event) (s : Session)
    (h : mkSession sid group = some s) :
    s.created_at ≤ s.last_active_at := by
  unfold mkSession at h
  split at h
  · exact absurd h (by simp)
  · rw [Option.some.injEq] at h
    subst h
    exact listMinInt_le_listMaxInt _ _

/-- C4: for every event-log content, the session list `load_sessions`
returns is sorted by `last_active_at` descending, and every returned
session satisfies `created_at ≤ last_active_at`. -/
theorem c4_sorted_desc_and_created_le_last (lines : List HLine) :
    List.Pairwise (fun a b => b.last_active_at ≤ a.last_active_at)
      (load_sessions lines) ∧
    ∀ s ∈ load_sessions lines, s.created_at ≤ s.last_active_at := by
  constructor
  · exact pairwise_sortByKeyDesc _ _
  · intro s hs
    have hs' : s ∈ (groupBySession (lines.filterMap parseEvent)).filterMap
        (fun g => mkSession g.1 g.2) :=
      (mem_sortByKeyDesc _ s _).mp hs
    rcases List.mem_filterMap.mp hs' with ⟨⟨sid, group⟩, _, hmk⟩
    exact mkSession_time_range sid group s hmk

/-- Concrete instance of the C4 theorem on the spec's scenario log. -/
theorem c4_witness :
    demoSessionB2 ∈ load_sessions demoLog ∧
    demoSessionB2.created_at ≤ demoSessionB2.last_active_at :=
  ⟨by decide,
   (c4_sorted_desc_and_created_le_last demoLog).2 demoSessionB2 (by decide)⟩

/-- C5: a malformed line at any position in the log changes nothing in the
aggregation — `load_sessions` of the log with the malformed line inserted
equals `load_sessions` of the log without it, so all well-formed lines
before and after it are aggregated the same and one bad line never aborts
the load. -/
theorem c5_malformed_line_never_aborts (pre post : List HLine) (raw : String) :
    load_sessions (pre ++ HLine.malformed raw :: post)
      = load_sessions (pre ++ post) := by
  have h : (pre ++ HLine.malformed raw :: post).filterMap parseEvent
      = (pre ++ post).filterMap parseEvent := by
    simp [List.filterMap_append, List.filterMap_cons, parseEvent]
  simp only [load_sessions, h]

/-- C6 counterexample: on `demo6` the single session's `project_path` is
`"B"`, the project of the earliest-timestamp event, while the first-seen
(log-order) project value of the group is `"A"` — so the first-seen value
is not what `load_sessions` assigns. -/
theorem c6_counterexample :
    (load_sessions demo6).map (fun s => s.project_path) = ["B"] ∧
    firstSeenProject (demo6.filterMap parseEvent) "s" = some "A" ∧
    ("B" : String) ≠ "A" := by decide

/-- Equation for `insertGroup` when the head key matches the event's session id. -/
theorem insertGroup_cons_eq (k : String) (es : List Event)
    (rest : List (String × List Event)) (e : Event) (h : k = e.sessionId) :
    insertGroup ((k, es) :: rest) e = (k, es ++ [e]) :: rest := by
  simp [insertGroup, h]

/-- Equation for `insertGroup` when the head key differs from the event's session id. -/
theorem insertGroup_cons_ne (k : String) (es : List Event)
    (rest : List (String × List Event)) (e : Event) (h : ¬ k = e.sessionId) :
    insertGroup ((k, es) :: rest) e = (k, es) :: insertGroup rest e := by
  simp [insertGroup, h]

/-- Every key of `insertGroup gs e` is a key of `gs` or the new event's
session id. -/
theorem insertGroup_key_sub (gs : List (String × List Event)) (e : Event) :
    ∀ p ∈ insertGroup gs e, p.1 = e.sessionId ∨ ∃ q ∈ gs, q.1 = p.1 := by
  induction gs with
  | nil =>
    intro p hp
    rcases List.mem_singleton.mp hp with rfl
    exact Or.inl rfl
  | cons g rest ih =>
    obtain ⟨k, es⟩ := g
    intro p hp
    by_cases h : k = e.sessionId
    · rw [insertGroup_cons_eq k es rest e h] at hp
      rcases List.mem_cons.mp hp with rfl | hp'
      · exact Or.inl h
      · exact Or.inr ⟨p, List.mem_cons_of_mem _ hp', rfl⟩
    · rw [insertGroup_cons_ne k es rest e h] at hp
      rcases List.mem_cons.mp hp with rfl | hp'
      · exact Or.inr ⟨(k, es), List.mem_cons_self _ _, rfl⟩
      · rcases ih p hp' with h' | ⟨q, hq, hq'⟩
        · exact Or.inl h'
        · exact Or.inr ⟨q, List.mem_cons_of_mem _ hq, hq'⟩

/-- The inserted event's session id is a key of `insertGroup gs e`. -/
theorem insertGroup_key_new (gs : List (String × List Event)) (e : Event) :
    ∃ p ∈ insertGroup gs e, p.1 = e.sessionId := by
  induction gs with
  | nil => exact ⟨(e.sessionId, [e]), List.mem_singleton.mpr rfl, rfl⟩
  | cons g rest ih =>
    obtain ⟨k, es⟩ := g
    by_cases h : k = e.sessionId
    · refine ⟨(k, es ++ [e]), ?_, h⟩
      rw [insertGroup_cons_eq k es rest e h]
      exact List.mem_cons_self _ _
    · rcases ih with ⟨p, hp, hp'⟩
      refine ⟨p, ?_, hp'⟩
      rw [insertGroup_cons_ne k es rest e h]
      exact List.mem_cons_of_mem _ hp

/-- Every key of `gs` remains a key of `insertGroup gs e`. -/
theorem insertGroup_key_sup (gs : List (String × List Event)) (e : Event) :
    ∀ q ∈ gs, ∃ p ∈ insertGroup gs e, p.1 = q.1 := by
  induction gs with
  | nil => intro q hq; exact absurd hq (List.not_mem_nil q)
  | cons g rest ih =>
    obtain ⟨k, es⟩ := g
    intro q hq
    by_cases h : k = e.sessionId
    · rw [insertGroup_cons_eq k es rest e h]
      rcases List.mem_cons.mp hq with rfl | hq'
      · exact ⟨(k, es ++ [e]), List.mem_cons_self _ _, rfl⟩
      · exact ⟨q, List.mem_cons_of_mem _ hq', rfl⟩
    · rw [insertGroup_cons_ne k es rest e h]
      rcases List.mem_cons.mp hq with rfl | hq'
      · exact ⟨(k, es), List.mem_cons_self _ _, rfl⟩
      · rcases ih q hq' with ⟨p, hp, hp'⟩
        exact ⟨p, List.mem_cons_of_mem _ hp, hp'⟩

/-- The invariant tying the grouping accumulator to the prefix of events
already processed: every group holds exactly the processed events of its
key in log order, absent keys have no processed events, and keys are
pairwise distinct. -/
def GroupsInv (processed : List Event) (gs : List (String × List Event)) : Prop :=
  (∀ p ∈ gs,
      p.2 = processed.filter (fun ev => decide (ev.sessionId = p.1))) ∧
  (∀ sid, (∀ p ∈ gs, p.1 ≠ sid) →
      processed.filter (fun ev => decide (ev.sessionId = sid)) = []) ∧
  gs.Pairwise (fun a b => a.1 ≠ b.1)

/-- The membership component of the invariant is preserved by
`insertGroup` (the distinct-keys hypothesis rules out a duplicate key
swallowing the appended event). -/
theorem insertGroup_mem_filter (processed : List Event) (e : Event) :
    ∀ gs : List (String × List Event),
      (∀ p ∈ gs, p.2 = processed.filter
          (fun ev => decide (ev.sessionId = p.1))) →
      ((∀ p ∈ gs, p.1 ≠ e.sessionId) →
          processed.filter (fun ev => decide (ev.sessionId = e.sessionId)) = []) →
      gs.Pairwise (fun a b => a.1 ≠ b.1) →
      ∀ p ∈ insertGroup gs e,
        p.2 = (processed ++ [e]).filter
          (fun ev => decide (ev.sessionId = p.1)) := by
  intro gs
  induction gs with
  | nil =>
    intro _ hm _ p hp
    rcases List.mem_singleton.mp hp with rfl
    rw [List.filter_append,
      hm (by intro q hq; exact absurd hq (List.not_mem_nil q))]
    simp
  | cons g rest ih =>
    obtain ⟨k, es⟩ := g
    intro hmem' hm hdist' p hp
    rcases List.pairwise_cons.mp hdist' with ⟨hghd, hgtl⟩
    by_cases h : k = e.sessionId
    · rw [insertGroup_cons_eq k es rest e h] at hp
      rcases List.mem_cons.mp hp with rfl | hp'
      · have hk := hmem' (k, es) (List.mem_cons_self _ _)
        simp only at hk
        rw [List.filter_append, ← hk]
        simp [h]
      · have hk := hmem' p (List.mem_cons_of_mem _ hp')
        rw [List.filter_append, hk]
        have hne : e.sessionId ≠ p.1 := by
          rw [← h]; exact hghd p hp'
        simp [hne]
    · rw [insertGroup_cons_ne k es rest e h] at hp
      rcases List.mem_cons.mp hp with rfl | hp'
      · have hk := hmem' (k, es) (List.mem_cons_self _ _)
        rw [List.filter_append, hk]
        have hne : e.sessionId ≠ (k, es).1 := fun hh => h hh.symm
        simp [hne]
      · exact ih (fun q hq => hmem' q (List.mem_cons_of_mem _ hq))
          (fun hall => hm (by
            intro q hq
            rcases List.mem_cons.mp hq with rfl | hq'
            · exact h
            · exact hall q hq'))
          hgtl p hp'

/-- The distinct-keys component of the invariant is preserved by
`insertGroup`. -/
theorem insertGroup_pairwise (e : Event) :
    ∀ gs : List (String × List Event),
      gs.Pairwise (fun a b => a.1 ≠ b.1) →
      (insertGroup gs e).Pairwise (fun a b => a.1 ≠ b.1) := by
  intro gs
  induction gs with
  | nil => intro _; simp [insertGroup]
  | cons g rest ih =>
    obtain ⟨k, es⟩ := g
    intro hd
    rcases List.pairwise_cons.mp hd with ⟨hghd, hgtl⟩
    by_cases h : k = e.sessionId
    · rw [insertGroup_cons_eq k es rest e h]
      exact List.pairwise_cons.mpr ⟨fun q hq => hghd q hq, hgtl⟩
    · rw [insertGroup_cons_ne k es rest e h]
      refine List.pairwise_cons.mpr ⟨?_, ih hgtl⟩
      intro q hq
      rcases insertGroup_key_sub rest e q hq with h' | ⟨r, hr, hr'⟩
      · rw [h']; exact fun hh => h hh
      · rw [← hr']; exact hghd r hr

/-- Lemma: `insertGroup` preserves the grouping invariant. -/
theorem groupsInv_insertGroup (processed : List Event)
    (gs : List (String × List Event)) (e : Event)
    (hinv : GroupsInv processed gs) :
    GroupsInv (processed ++ [e]) (insertGroup gs e) := by
  obtain ⟨hmem, hmiss, hdist⟩ := hinv
  refine ⟨insertGroup_mem_filter processed e gs hmem (hmiss e.sessionId) hdist,
    ?_, insertGroup_pairwise e gs hdist⟩
  intro sid hall
  have hsid_ne : e.sessionId ≠ sid := by
    rcases insertGroup_key_new gs e with ⟨p, hp, hp'⟩
    rw [← hp']
    exact hall p hp
  have hold : ∀ p ∈ gs, p.1 ≠ sid := by
    intro q hq
    rcases insertGroup_key_sup gs e q hq with ⟨p, hp, hp'⟩
    rw [← hp']
    exact hall p hp
  rw [List.filter_append, hmiss sid hold]
  simp [hsid_ne]

/-- Folding events through `insertGroup` maintains the invariant. -/
theorem groupsInv_foldl (es : List Event) :
    ∀ (processed : List Event) (gs : List (String × List Event)),
      GroupsInv processed gs →
      GroupsInv (processed ++ es) (es.foldl insertGroup gs) := by
  induction es with
  | nil => intro processed gs h; simpa using h
  | cons e rest ih =>
    intro processed gs h
    have h1 := groupsInv_insertGroup processed gs e h
    have h2 := ih (processed ++ [e]) (insertGroup gs e) h1
    simpa using h2

/-- Each group of `groupBySession events` is exactly the filter of the
events by its key, in log order. -/
theorem groupBySession_filter (events : List Event) (sid : String)
    (group : List Event) (h : (sid, group) ∈ groupBySession events) :
    group = events.filter (fun ev => decide (ev.sessionId = sid)) := by
  have hbase : GroupsInv [] [] :=
    ⟨by intro p hp; exact absurd hp (List.not_mem_nil p),
     by intro sid' _; rfl, List.Pairwise.nil⟩
  have hinv := groupsInv_foldl events [] [] hbase
  simp only [List.nil_append] at hinv
  exact hinv.1 (sid, group) h

/-- The head of a stable ascending insertion: the smaller of the inserted
element and the old head, with the old head winning ties only when its key
is strictly smaller. -/
theorem insortKey_head {α : Type} (k : α → Int) (a : α) (l : List α) :
    (insortKey k a l).head? = some (match l.head? with
      | none => a
      | some b => if k b < k a then b else a) := by
  cases l with
  | nil => rfl
  | cons b bs =>
    by_cases h : k b < k a
    · simp [insortKey, h]
    · simp [insortKey, h]

/-- The head of the stable ascending sort is the first element attaining
the minimal key. -/
theorem sortByKey_head {α : Type} (k : α → Int) (l : List α) :
    (sortByKey k l).head? = minFirstBy k l := by
  induction l with
  | nil => rfl
  | cons a l ih =>
    show (insortKey k a (sortByKey k l)).head? = _
    rw [insortKey_head, ih]
    cases hml : minFirstBy k l with
    | none => simp [minFirstBy, hml]
    | some m =>
      by_cases h : k m < k a
      · simp [minFirstBy, hml, h]
      · simp [minFirstBy, hml, h]

/-- The session a group yields carries the group's key as its id and the
project of the group's first earliest-timestamp event as its
`project_path`. -/
theorem mkSession_project (sid : String) (group : List Event) (s : Session)
    (h : mkSession sid group = some s) :
    s.session_id = sid ∧
    (minFirstBy (fun e => e.timestamp) group).map (fun e => e.project)
      = some s.project_path := by
  cases hl : sortByKey (fun e => e.timestamp) group with
  | nil =>
    rw [mkSession, hl] at h
    exact absurd h (by simp)
  | cons first rest =>
    rw [mkSession, hl] at h
    rw [Option.some.injEq] at h
    subst h
    refine ⟨rfl, ?_⟩
    have hhd : (sortByKey (fun e => e.timestamp) group).head? = some first := by
      rw [hl]; rfl
    rw [sortByKey_head] at hhd
    rw [hhd]
    rfl

/-- C6 amended: for every session `load_sessions` returns, `project_path`
is the `project` of the group's earliest-timestamp event (the first in log
order among events tied for the earliest timestamp) — not the first-seen
(log-order) project value. -/
theorem c6_amended_project_from_earliest_event (lines : List HLine)
    (s : Session) (hs : s ∈ load_sessions lines) :
    (minFirstBy (fun e => e.timestamp)
        ((lines.filterMap parseEvent).filter
          (fun e => decide (e.sessionId = s.session_id)))).map
      (fun e => e.project) = some s.project_path := by
  have hs' : s ∈ (groupBySession (lines.filterMap parseEvent)).filterMap
      (fun g => mkSession g.1 g.2) := (mem_sortByKeyDesc _ s _).mp hs
  rcases List.mem_filterMap.mp hs' with ⟨⟨sid, group⟩, hmem, hmk⟩
  rcases mkSession_project sid group s hmk with ⟨hsid, hproj⟩
  have hgrp := groupBySession_filter (lines.filterMap parseEvent) sid group hmem
  rw [hsid, ← hgrp]
  exact hproj

/-- Concrete instance of the amended C6 theorem on `demo6`: the earliest
event of the group is the timestamp-100 event with project `"B"`. -/
theorem c6_amended_witness :
    demo6Session ∈ load_sessions demo6 ∧
    (minFirstBy (fun e => e.timestamp)
        ((demo6.filterMap parseEvent).filter
          (fun e => decide (e.sessionId = demo6Session.session_id)))).map
      (fun e => e.project) = some demo6Session.project_path :=
  ⟨by decide,
   c6_amended_project_from_earliest_event demo6 demo6Session (by decide)⟩

/-- C7 counterexample: on a session whose `todos` is already nonempty,
reading a file that contains only a malformed line does not return the
session unchanged — the code reassigns `todos := []`. -/
theorem c7_counterexample :
    load_session_detail sessionWithTodo
        (FileRead.content [DLine.malformed "oops"])
      ≠ sessionWithTodo := by decide

/-- Lines that are blank, malformed or `todos`-less contribute nothing to
the accumulation. -/
theorem foldl_collect_malformed (raws : List String) :
    ∀ acc : List String,
      (raws.map DLine.malformed).foldl collectLineTodos acc = acc := by
  induction raws with
  | nil => intro acc; rfl
  | cons r rs ih => intro acc; exact ih acc

/-- C7 amended: `load_session_detail` never raises; on a missing or
unreadable file it returns the Session unchanged; on a readable file whose
lines are all malformed it skips every line and returns the Session with
`todos` reassigned to the empty list — unchanged exactly when its `todos`
was already empty. -/
theorem c7_amended_enrichment_best_effort (s : Session) (raws : List String) :
    load_session_detail s FileRead.missing = s ∧
    load_session_detail s FileRead.unreadable = s ∧
    load_session_detail s (FileRead.content (raws.map DLine.malformed))
      = { s with todos := [] } := by
  refine ⟨rfl, rfl, ?_⟩
  show { s with todos :=
      dedupeTodos ((raws.map DLine.malformed).foldl collectLineTodos []) } = _
  rw [foldl_collect_malformed raws []]
  rfl

/-- The Python truthiness `or`-chain over the three fields equals the
spec-side first-truthy extraction. -/
theorem pyOr_chain_eq_spec (c t ti : Option String) (sf : String) :
    pyOrStr c (pyOrStr t (pyOrStr ti sf)) = specExtractDisplay c t ti sf := by
  rcases c with _ | cv <;> rcases t with _ | tv <;> rcases ti with _ | tiv <;>
    simp only [pyOrStr, specExtractDisplay, firstTruthyField, Option.getD] <;>
    split_ifs <;> rfl

/-- The item loop accumulates exactly the spec-side per-item displays. -/
theorem foldl_items_eq_flatMap (items : List TodoItem) :
    ∀ acc : List String,
      items.foldl
        (fun a it =>
          match it with
          | TodoItem.str s => a ++ [s]
          | TodoItem.obj c t ti sf => a ++ [pyOrStr c (pyOrStr t (pyOrStr ti sf))]
          | TodoItem.otherVal => a)
        acc
      = acc ++ items.flatMap specItemDisplay := by
  induction items with
  | nil => intro acc; simp
  | cons it rest ih =>
    intro acc
    cases it with
    | str s => simp [List.foldl_cons, ih, specItemDisplay]
    | obj c t ti sf =>
      show rest.foldl _ (acc ++ [pyOrStr c (pyOrStr t (pyOrStr ti sf))]) = _
      rw [ih, pyOr_chain_eq_spec]
      simp [specItemDisplay]
    | otherVal => simp [List.foldl_cons, ih, specItemDisplay]

/-- The line loop accumulates exactly the spec-side per-line displays. -/
theorem foldl_lines_eq_flatMap (lines : List DLine) :
    ∀ acc : List String,
      lines.foldl collectLineTodos acc
        = acc ++ (lines.flatMap specLineItems).flatMap specItemDisplay := by
  induction lines with
  | nil => intro acc; simp
  | cons l rest ih =>
    intro acc
    have hline : collectLineTodos acc l
        = acc ++ (specLineItems l).flatMap specItemDisplay := by
      cases l with
      | blank => simp [collectLineTodos, specLineItems]
      | malformed raw => simp [collectLineTodos, specLineItems]
      | record todos =>
        cases todos with
        | none => simp [collectLineTodos, specLineItems]
        | some items =>
          cases items with
          | nil => simp [collectLineTodos, specLineItems]
          | cons it its =>
            show (it :: its).foldl _ acc = _
            rw [foldl_items_eq_flatMap]
            rfl
    calc (l :: rest).foldl collectLineTodos acc
        = rest.foldl collectLineTodos (collectLineTodos acc l) := rfl
    _ = collectLineTodos acc l
          ++ (rest.flatMap specLineItems).flatMap specItemDisplay := ih _
    _ = acc ++ ((l :: rest).flatMap specLineItems).flatMap specItemDisplay := by
          rw [hline]; simp

/-- The seen-set dedup loop keeps its two components equal and computes the
spec-side first-occurrence dedup. -/
theorem foldl_dedupeStep_pair (l : List String) :
    ∀ acc : List String,
      l.foldl dedupeStep (acc, acc)
        = (l.foldl (fun a x => if x ∈ a then a else a ++ [x]) acc,
           l.foldl (fun a x => if x ∈ a then a else a ++ [x]) acc) := by
  induction l with
  | nil => intro acc; rfl
  | cons x xs ih =>
    intro acc
    by_cases h : x ∈ acc
    · show xs.foldl dedupeStep (dedupeStep (acc, acc) x) = _
      rw [show dedupeStep (acc, acc) x = (acc, acc) from by simp [dedupeStep, h]]
      rw [ih acc]
      simp [h]
    · show xs.foldl dedupeStep (dedupeStep (acc, acc) x) = _
      rw [show dedupeStep (acc, acc) x = (acc ++ [x], acc ++ [x]) from by
        simp [dedupeStep, h]]
      rw [ih (acc ++ [x])]
      simp [h]

/-- The code's dedup equals the spec-side dedup. -/
theorem dedupeTodos_eq_spec (l : List String) :
    dedupeTodos l = specDedupFirst l := by
  show (l.foldl dedupeStep ([], [])).2 = _
  rw [foldl_dedupeStep_pair l []]
  rfl

/-- The spec-side dedup produces no duplicates. -/
theorem specDedupFirst_nodup (l : List String) : (specDedupFirst l).Nodup := by
  have key : ∀ (l' : List String) (acc : List String), acc.Nodup →
      (l'.foldl (fun a x => if x ∈ a then a else a ++ [x]) acc).Nodup := by
    intro l'
    induction l' with
    | nil => intro acc h; exact h
    | cons x xs ih =>
      intro acc h
      by_cases hx : x ∈ acc
      · show (xs.foldl _ (if x ∈ acc then acc else acc ++ [x])).Nodup
        rw [if_pos hx]
        exact ih acc h
      · show (xs.foldl _ (if x ∈ acc then acc else acc ++ [x])).Nodup
        rw [if_neg hx]
        exact ih (acc ++ [x]) (by simp [List.nodup_append, h, hx])
  exact key l [] List.nodup_nil

/-- C8: for every detail-file content, the `todos` that
`load_session_detail` assigns equals the spec-described pipeline — every
line's items rendered by trying `content`, then `text`, then `title`, then
the generic string form, accumulated in order and deduplicated preserving
first occurrence — and contains no duplicates. -/
theorem c8_todos_match_spec_pipeline (s : Session) (lines : List DLine) :
    (load_session_detail s (FileRead.content lines)).todos
      = specDedupFirst ((lines.flatMap specLineItems).flatMap specItemDisplay) ∧
    ((load_session_detail s (FileRead.content lines)).todos).Nodup := by
  have h : (load_session_detail s (FileRead.content lines)).todos
      = specDedupFirst ((lines.flatMap specLineItems).flatMap specItemDisplay) := by
    show dedupeTodos (lines.foldl collectLineTodos []) = _
    rw [foldl_lines_eq_flatMap lines [], dedupeTodos_eq_spec]
    rfl
  exact ⟨h, h ▸ specDedupFirst_nodup _⟩

/-- C9: in the confirming sub-state, any key other than the affirmative
`y`/`Y` (and other than the timeout and resize pseudo-keys, which are not
key presses) cancels: the state is exactly the previous one with the
pending-confirmation flag dropped and the message cleared — so the mode is
still DELETE and the selection set is untouched — and neither the deletion
engine nor quit nor launch is triggered. -/
theorem c9_confirm_cancel (dirExists : String → Bool) (reloaded : List Session)
    (st : TuiState) (key : Int)
    (hmode : st.mode = MODE_DELETE) (hc : st.confirming = true)
    (hy : key ≠ 121) (hY : key ≠ 89)
    (htimeout : key ≠ -1) (hresize : key ≠ 410) :
    (mainStep dirExists reloaded st key).state
      = { st with confirming := false, message := none } ∧
    (mainStep dirExists reloaded st key).state.mode = MODE_DELETE ∧
    (mainStep dirExists reloaded st key).state.selected = st.selected ∧
    (mainStep dirExists reloaded st key).state.cursor = st.cursor ∧
    (mainStep dirExists reloaded st key).state.message = none ∧
    (mainStep dirExists reloaded st key).state.confirming = false ∧
    (mainStep dirExists reloaded st key).deletionInvoked = false ∧
    (mainStep dirExists reloaded st key).quitLoop = false ∧
    (mainStep dirExists reloaded st key).execLaunched = false := by
  have h1 : mainStep dirExists reloaded st key =
      { state := { st with confirming := false, message := none }
        quitLoop := false
        execLaunched := false
        deletionInvoked := false } := by
    simp [mainStep, htimeout, hresize, hc, hy, hY]
  rw [h1]
  refine ⟨rfl, hmode, rfl, rfl, rfl, rfl, rfl, rfl, rfl⟩

/-- Concrete instance of the C9 theorem: from the two-session confirming
state, the non-affirmative key `n` cancels back to DELETE with both
selections intact. -/
theorem c9_witness :
    (mainStep (fun _ => false) [] demoConfirmState 110).state
      = { demoConfirmState with confirming := false, message := none } ∧
    (mainStep (fun _ => false) [] demoConfirmState 110).state.mode
      = MODE_DELETE ∧
    (mainStep (fun _ => false) [] demoConfirmState 110).state.selected
      = demoConfirmState.selected ∧
    (mainStep (fun _ => false) [] demoConfirmState 110).state.cursor
      = demoConfirmState.cursor ∧
    (mainStep (fun _ => false) [] demoConfirmState 110).state.message = none ∧
    (mainStep (fun _ => false) [] demoConfirmState 110).state.confirming
      = false ∧
    (mainStep (fun _ => false) [] demoConfirmState 110).deletionInvoked
      = false ∧
    (mainStep (fun _ => false) [] demoConfirmState 110).quitLoop = false ∧
    (mainStep (fun _ => false) [] demoConfirmState 110).execLaunched = false :=
  c9_confirm_cancel (fun _ => false) [] demoConfirmState 110 rfl rfl
    (by decide) (by decide) (by decide) (by decide)

/-- The tab key in DELETE mode (outside confirming, nonempty list) only
clears the message and toggles the current session's id in the selection
set. -/
theorem mainStep_tab (dirExists : String → Bool) (reloaded : List Session)
    (st : TuiState) (hmode : st.mode = MODE_DELETE)
    (hconf : st.confirming = false) (hne : st.sessions ≠ []) :
    mainStep dirExists reloaded st 9 =
      { state := { st with
          message := none
          selected := if (currentSession st).session_id ∈ st.selected
            then st.selected.erase (currentSession st).session_id
            else insert (currentSession st).session_id st.selected }
        quitLoop := false
        execLaunched := false
        deletionInvoked := false } := by
  have hemp : ({ st with message := none } : TuiState).sessions.isEmpty = false := by
    simp [List.isEmpty_iff, hne]
  simp only [mainStep, hconf, hemp, hmode]
  rw [if_neg (by decide : ¬ MODE_DELETE = MODE_SELECT)]
  simp [handleDeleteKey, currentSession]
  split_ifs <;> rfl

/-- C10: in DELETE mode the toggle key is an involution on the selection
set — one press flips membership of exactly the current session's id
(erasing it when present, inserting it when absent, touching no other id),
and a second press restores the selection set exactly. -/
theorem c10_toggle_involution (dirExists : String → Bool)
    (reloaded : List Session) (st : TuiState)
    (hmode : st.mode = MODE_DELETE) (hconf : st.confirming = false)
    (hcur : st.cursor < st.sessions.length) :
    ((mainStep dirExists reloaded st 9).state.selected
        = if (currentSession st).session_id ∈ st.selected
          then st.selected.erase (currentSession st).session_id
          else insert (currentSession st).session_id st.selected) ∧
    ((currentSession st).session_id ∈ (mainStep dirExists reloaded st 9).state.selected
        ↔ (currentSession st).session_id ∉ st.selected) ∧
    (∀ x, x ≠ (currentSession st).session_id →
        (x ∈ (mainStep dirExists reloaded st 9).state.selected ↔ x ∈ st.selected)) ∧
    (mainStep dirExists reloaded
        (mainStep dirExists reloaded st 9).state 9).state.selected
      = st.selected := by
  have hne : st.sessions ≠ [] := by
    intro h
    rw [h] at hcur
    exact absurd hcur (by simp)
  have h1 := mainStep_tab dirExists reloaded st hmode hconf hne
  have e1 : (mainStep dirExists reloaded st 9).state.selected
      = if (currentSession st).session_id ∈ st.selected
        then st.selected.erase (currentSession st).session_id
        else insert (currentSession st).session_id st.selected := by
    rw [h1]
  have hmode1 : (mainStep dirExists reloaded st 9).state.mode = MODE_DELETE := by
    rw [h1]; exact hmode
  have hconf1 : (mainStep dirExists reloaded st 9).state.confirming = false := by
    rw [h1]; exact hconf
  have hne1 : (mainStep dirExists reloaded st 9).state.sessions ≠ [] := by
    rw [h1]; exact hne
  have hcur1 : currentSession (mainStep dirExists reloaded st 9).state
      = currentSession st := by rw [h1]; rfl
  have h2 := mainStep_tab dirExists reloaded
    (mainStep dirExists reloaded st 9).state hmode1 hconf1 hne1
  have e2 : (mainStep dirExists reloaded
        (mainStep dirExists reloaded st 9).state 9).state.selected
      = if (currentSession st).session_id
          ∈ (mainStep dirExists reloaded st 9).state.selected
        then ((mainStep dirExists reloaded st 9).state.selected).erase
          (currentSession st).session_id
        else insert (currentSession st).session_id
          (mainStep dirExists reloaded st 9).state.selected := by
    rw [h2, hcur1]
  refine ⟨e1, ?_, ?_, ?_⟩
  · rw [e1]
    by_cases hin : (currentSession st).session_id ∈ st.selected
    · rw [if_pos hin]
      simp [hin]
    · rw [if_neg hin]
      simp [hin]
  · intro x hx
    rw [e1]
    by_cases hin : (currentSession st).session_id ∈ st.selected
    · rw [if_pos hin]
      simp [Finset.mem_erase, hx]
    · rw [if_neg hin]
      simp [Finset.mem_insert, hx]
  · rw [e2, e1]
    by_cases hin : (currentSession st).session_id ∈ st.selected
    · rw [if_pos hin,
        if_neg (Finset.not_mem_erase (currentSession st).session_id st.selected)]
      exact Finset.insert_erase hin
    · rw [if_neg hin,
        if_pos (Finset.mem_insert_self (currentSession st).session_id st.selected)]
      exact Finset.erase_insert hin

/-- Concrete instance of the C10 theorem: toggling the cursor session of
`demoDeleteState` twice restores the original selection. -/
theorem c10_witness :
    (mainStep (fun _ => true) []
        (mainStep (fun _ => true) [] demoDeleteState 9).state 9).state.selected
      = demoDeleteState.selected :=
  (c10_toggle_involution (fun _ => true) [] demoDeleteState rfl rfl
    (by decide)).2.2.2

end SessionsManager
